import Mathlib

/-
Verification of the artifact-presence resolver in scripts/ai_readiness_report.py
and of the finding aggregator shared by scripts/cve_report.py and
scripts/sbom_report.py (the function summarize_cves, identical in both files up
to the extra all_cves list and urls field kept by cve_report.py; the embedding
below follows the cve_report.py version).

Modeling conventions.
* Python strings are Lean String values; string scanning helpers work on the
  underlying character lists so that they evaluate inside the kernel.
* A file-system snapshot is a finite map from paths (lists of components,
  relative to the repository root) to nodes.  A directory node carries a flag
  recording that reading its entries raises PermissionError; the root itself is
  always an accessible directory.  Looking up a path whose parent directory is
  read-denied still succeeds, matching a directory that lacks the read bit but
  keeps the search bit, which is the situation the try/except PermissionError
  around iterdir in path_exists is written for.
* Python dicts are association lists in insertion order; assignment to an
  existing key replaces the stored value in place, assignment to a fresh key
  appends (dictInsert below).
* Python float arithmetic in the percentage computation is modeled by exact
  rationals; the only behaviour the spec relies on there is the possible = 0
  guard, which is independent of rounding.
* list.index raises ValueError when the element is absent; fallible code is
  embedded in Except String, with a fixed error message standing in for the
  ValueError text.
-/

namespace ReportCore

/-! ## String helpers -/

/-- Splits a character list at every slash, keeping empty groups. -/
def splitSlash : List Char → List (List Char)
  | [] => [[]]
  | c :: rest =>
    if c = '/' then [] :: splitSlash rest
    else
      match splitSlash rest with
      | [] => [[c]]
      | g :: gs => (c :: g) :: gs

/-- Path components of a candidate string, as pathlib normalizes them:
split on slashes and drop empty components (so a trailing slash or a doubled
slash is ignored). -/
def splitPath (s : String) : List String :=
  ((splitSlash s.toList).map (fun g => String.mk g)).filter (fun c => c ≠ "")

/-- ai_readiness_report.py lines 103-105: a path is treated as a glob pattern
when it contains one of the characters star, question mark, open bracket. -/
def is_glob_pattern (path : String) : Bool :=
  path.toList.any (fun c => c = '*' || c = '?' || c = '[')

/-! ## fnmatch-style matching of one glob component against one file name

pathlib matches each non-recursive pattern component against entry names with
fnmatch semantics: star and question mark wildcards plus bracket classes, a
class may be negated with a leading exclamation mark, a closing bracket first
in the class body is literal, and an unterminated class makes the open bracket
a literal character. -/

/-- Scans a class body up to the closing bracket; none when unterminated. -/
def spanClass : List Char → Option (List Char × List Char)
  | [] => none
  | c :: r =>
    if c = ']' then some ([], r)
    else (spanClass r).map (fun q => (c :: q.1, q.2))

theorem spanClass_length : ∀ (l : List Char), ∀ b r, spanClass l = some (b, r) →
    r.length < l.length
  | [], _, _, h => by simp [spanClass] at h
  | c :: t, b, r, h => by
    by_cases hc : c = ']'
    · simp only [spanClass, if_pos hc, Option.some.injEq, Prod.mk.injEq] at h
      simp [← h.2]
    · simp only [spanClass, if_neg hc, Option.map_eq_some', Prod.mk.injEq] at h
      obtain ⟨q, hq, hb, hr⟩ := h
      have := spanClass_length t q.1 q.2 (by simpa using hq)
      simp only [List.length_cons, ← hr]
      omega

/-- Class body after the optional negation marker: a closing bracket in first
position is part of the body. -/
def parseClassBody (l : List Char) : Option (List Char × List Char) :=
  match l with
  | ']' :: r => (spanClass r).map (fun q => (']' :: q.1, q.2))
  | _ => spanClass l

theorem parseClassBody_length : ∀ (l : List Char), ∀ b r,
    parseClassBody l = some (b, r) → r.length < l.length := by
  intro l b r h
  unfold parseClassBody at h
  split at h
  · next r0 =>
    simp only [Option.map_eq_some', Prod.mk.injEq] at h
    obtain ⟨q, hq, _, hr⟩ := h
    have := spanClass_length r0 q.1 q.2 (by simpa using hq)
    simp only [List.length_cons, ← hr]
    omega
  · exact spanClass_length l b r h

/-- Parses a bracket class: negation flag, body, and remaining pattern. -/
def parseClass (l : List Char) : Option (Bool × List Char × List Char) :=
  match l with
  | '!' :: l1 => (parseClassBody l1).map (fun q => (true, q.1, q.2))
  | _ => (parseClassBody l).map (fun q => (false, q.1, q.2))

theorem parseClass_length : ∀ (l : List Char), ∀ n b r,
    parseClass l = some (n, b, r) → r.length < l.length := by
  intro l n b r h
  unfold parseClass at h
  split at h
  · next l1 =>
    simp only [Option.map_eq_some', Prod.mk.injEq] at h
    obtain ⟨q, hq, _, _, hr⟩ := h
    have := parseClassBody_length l1 q.1 q.2 (by simpa using hq)
    simp only [List.length_cons, ← hr]
    omega
  · simp only [Option.map_eq_some', Prod.mk.injEq] at h
    obtain ⟨q, hq, _, _, hr⟩ := h
    have := parseClassBody_length l q.1 q.2 (by simpa using hq)
    subst hr
    omega

/-- Membership of a character in a class body; a range whose bounds are
reversed matches nothing, a trailing dash is a literal dash. -/
def classMember : List Char → Char → Bool
  | [], _ => false
  | a :: '-' :: b :: rest, c => (a ≤ c && c ≤ b) || classMember rest c
  | a :: rest, c => (a = c) || classMember rest c

/-- Anchored fnmatch of a pattern against a name, both as character lists. -/
def fnmatchChars (ps cs : List Char) : Bool :=
  match ps, cs with
  | [], cs => cs.isEmpty
  | '*' :: ps2, cs =>
    fnmatchChars ps2 cs ||
      (match cs with
       | [] => false
       | _ :: cs2 => fnmatchChars ('*' :: ps2) cs2)
  | '?' :: _, [] => false
  | '?' :: ps2, _ :: cs2 => fnmatchChars ps2 cs2
  | '[' :: ps2, cs =>
    (match hpc : parseClass ps2 with
     | some (neg, body, rest) =>
       (match cs with
        | [] => false
        | c :: cs2 => (classMember body c != neg) && fnmatchChars rest cs2)
     | none =>
       (match cs with
        | [] => false
        | c :: cs2 => (c = '[') && fnmatchChars ps2 cs2))
  | _ :: _, [] => false
  | p :: ps2, c :: cs2 => (p = c) && fnmatchChars ps2 cs2
termination_by (ps.length, cs.length)
decreasing_by
  all_goals first
    | decreasing_tactic
    | (simp_wf
       have hlen := parseClass_length _ _ _ _ hpc
       exact Prod.Lex.left _ _ (by omega))

/-- fnmatch on strings. -/
def fnmatchStr (pat name : String) : Bool :=
  fnmatchChars pat.toList name.toList

/-! ## Association lists with Python dict semantics -/

/-- Python dict assignment: replace the value of an existing key in place,
append a fresh key at the end. -/
def dictInsert {α : Type} (l : List (String × α)) (k : String) (v : α) :
    List (String × α) :=
  if l.any (fun p => p.1 = k) then
    l.map (fun p => if p.1 = k then (k, v) else p)
  else l ++ [(k, v)]

/-- Python dict lookup returning an option (membership test plus access). -/
def dictFind? {α : Type} (l : List (String × α)) (k : String) : Option α :=
  (l.find? (fun p => p.1 = k)).map (fun p => p.2)

/-- Position of a string in a list, as Python list.index computes it, or none
when the element is absent (where Python raises ValueError). -/
def listIndex (s : String) : List String → Option Nat
  | [] => none
  | x :: xs => if x = s then some 0 else (listIndex s xs).map (fun i => i + 1)

/-- Python set.update on a set modeled as a duplicate-free list in insertion
order: add each new element unless already present. -/
def unionList (base new : List String) : List String :=
  new.foldl (fun acc v => if acc.contains v then acc else acc ++ [v]) base

end ReportCore

namespace ReportCore

/-! ## File-system snapshots -/

/-- A node of the snapshot: a regular file with its decoded text content, or a
directory whose denied flag records that listing its entries raises
PermissionError. -/
inductive NodeKind where
  | file (content : String)
  | dir (denied : Bool)
deriving DecidableEq

/-- A file-system view rooted at the repository root: the set of existing
paths, each with its node.  The root (empty path) is implicitly an accessible
directory. -/
structure FS where
  nodes : List (List String × NodeKind)
deriving DecidableEq

/-- Node at a path, none when nothing exists there. -/
def FS.find (fs : FS) (p : List String) : Option NodeKind :=
  if p = [] then some (NodeKind.dir false)
  else (fs.nodes.find? (fun q => q.1 = p)).map (fun q => q.2)

/-- The immediate children of a directory path: entries one component below
it, with their names.  This is what a successful iterdir returns. -/
def childEntries (fs : FS) (p : List String) : List (String × NodeKind) :=
  fs.nodes.filterMap (fun q =>
    if q.1.dropLast = p then (q.1.getLast?).map (fun nm => (nm, q.2)) else none)

/-- ai_readiness_report.py lines 74-95, path_exists: a path exists when it is
a regular file, or a directory whose listing succeeds and contains at least
one entry surviving the exclusion list.  The try/except PermissionError around
iterdir turns a read-denied directory into False.  The Python truthiness test
on exclude_files sends both None and the empty list to the plain
any(iterdir()) branch. -/
def path_exists (fs : FS) (p : List String) (exclude_files : Option (List String)) :
    Bool :=
  match fs.find p with
  | some (NodeKind.file _) => true
  | some (NodeKind.dir denied) =>
    if denied then false
    else
      match exclude_files with
      | some ex =>
        if ex.isEmpty then !(childEntries fs p).isEmpty
        else (childEntries fs p).any (fun e => !(ex.contains e.1))
      | none => !(childEntries fs p).isEmpty
  | none => false

/-- Accessibility of the directory chain from base (inclusive) down to a
strict descendant q (exclusive): every intermediate prefix is an existing,
readable directory.  pathlib swallows PermissionError while walking, so a
denied directory hides everything below it. -/
def visibleFrom (fs : FS) (base q : List String) : Bool :=
  base.isPrefixOf q && decide (base.length < q.length) &&
    (List.range q.length).all (fun i =>
      decide (i < base.length) ||
        decide (fs.find (q.take i) = some (NodeKind.dir false)))

/-- All snapshot entries that a recursive walk from base reaches: strict
descendants whose directory chain from base is readable.  This is what
rglob("*") yields (their order does not matter to the scanner, which only
counts). -/
def rglobEntries (fs : FS) (base : List String) : List (List String × NodeKind) :=
  fs.nodes.filter (fun q => visibleFrom fs base q.1)

/-- ai_readiness_report.py lines 144-147: recursive file count of a matched
directory, applying the exclusion list to file names when present. -/
def dirFileCount (fs : FS) (base : List String)
    (exclude_files : Option (List String)) : Nat :=
  ((rglobEntries fs base).filter (fun q =>
    (match q.2 with | NodeKind.file _ => true | NodeKind.dir _ => false) &&
      (match exclude_files with
       | none => true
       | some ex => ex.isEmpty || !(ex.contains (q.1.getLast?.getD ""))))).length

/-- Directories reachable by the recursive ** selector from base: base itself
and every visible descendant directory (a denied directory is itself listed,
but nothing below it is). -/
def descDirs (fs : FS) (base : List String) : List (List String) :=
  base :: fs.nodes.filterMap (fun q =>
    match q.2 with
    | NodeKind.dir _ => if visibleFrom fs base q.1 then some q.1 else none
    | NodeKind.file _ => none)

/-- Entries scandir yields to the glob walker: nothing unless the path is a
readable directory (pathlib swallows the PermissionError of a denied one). -/
def scandirForGlob (fs : FS) (p : List String) : List (String × NodeKind) :=
  match fs.find p with
  | some (NodeKind.dir false) => childEntries fs p
  | _ => []

/-- Non-recursive pathlib glob: successive components are matched against
entry names with fnmatch, descending only through readable directories; a **
component matches any chain of readable directories. -/
def globFrom (fs : FS) (base : List String) : List String → List (List String)
  | [] => [base]
  | c :: cs =>
    if c = "**" then
      (descDirs fs base).flatMap (fun d => globFrom fs d cs)
    else
      (scandirForGlob fs base).flatMap (fun e =>
        if fnmatchStr c e.1 then globFrom fs (base ++ [e.1]) cs else [])

/-- The list of paths matching a glob pattern, relative to the root. -/
def globList (fs : FS) (pattern : String) : List (List String) :=
  globFrom fs [] (splitPath pattern)

/-- ai_readiness_report.py lines 98-100, glob_exists: at least one match. -/
def glob_exists (fs : FS) (pattern : String) : Bool :=
  !(globList fs pattern).isEmpty

/-! ## Rules and scan results -/

/-- One value of the AI_READINESS_FILES configuration dict (lines 31-71).
Fields that the code reads with dict.get defaults are options. -/
structure RuleInfo where
  name : String
  description : String
  weight : Option Int
  alternatives : Option (List String)
  exclude_files : Option (List String)
deriving DecidableEq

/-- One value of the scan_files result dict: the spread rule info together
with the computed fields (lines 131-164).  exists_ stands for the "exists"
key; the measurement keys are options because each branch sets only some. -/
structure ScanEntry where
  info : RuleInfo
  exists_ : Bool
  found_at : Option String
  file_count : Option Nat
  size : Option Nat
  lines : Option Nat
deriving DecidableEq

/-- The loop of scan_files lines 120-129: walk the primary path and the
alternatives in order, stop at the first candidate that exists, where a glob
candidate exists through glob_exists and any other candidate through
path_exists. -/
def findFirstCandidate (fs : FS) (ex : Option (List String)) :
    List String → Option String
  | [] => none
  | p :: ps =>
    if is_glob_pattern p then
      if glob_exists fs p then some p else findFirstCandidate fs ex ps
    else
      if path_exists fs (splitPath p) ex then some p
      else findFirstCandidate fs ex ps

/-- Existence test of a single candidate, as the loop body applies it. -/
def candExists (fs : FS) (ex : Option (List String)) (p : String) : Bool :=
  if is_glob_pattern p then glob_exists fs p else path_exists fs (splitPath p) ex

/-- scan_files lines 112-164 for one rule: resolve the first matching
candidate and build the result entry.  A glob winner is measured by its match
count; a directory winner by its recursive file count; a file winner by its
size and newline count plus one.  The last branch is unreachable because a
winning non-glob candidate passed path_exists (Python would raise in
read_text there). -/
def scanOneRule (fs : FS) (file_path : String) (info : RuleInfo) : ScanEntry :=
  let exclude_files := info.exclude_files
  match findFirstCandidate fs exclude_files (file_path :: info.alternatives.getD []) with
  | some found_path =>
    if is_glob_pattern found_path then
      { info := info, exists_ := true, found_at := some found_path,
        file_count := some (globList fs found_path).length,
        size := none, lines := none }
    else
      match fs.find (splitPath found_path) with
      | some (NodeKind.dir _) =>
        { info := info, exists_ := true, found_at := some found_path,
          file_count := some (dirFileCount fs (splitPath found_path) exclude_files),
          size := none, lines := none }
      | some (NodeKind.file content) =>
        { info := info, exists_ := true, found_at := some found_path,
          file_count := none, size := some content.length,
          lines := some (content.toList.count '\n' + 1) }
      | none =>
        { info := info, exists_ := true, found_at := some found_path,
          file_count := none, size := none, lines := none }
  | none =>
    { info := info, exists_ := false, found_at := none,
      file_count := none, size := none, lines := none }

/-- scan_files lines 108-166: one result dict entry per configuration entry,
keyed like the configuration (a Python dict, so insertion order). -/
def scan_files (fs : FS) (rules : List (String × RuleInfo)) :
    List (String × ScanEntry) :=
  rules.foldl (fun results r => dictInsert results r.1 (scanOneRule fs r.1 r.2)) []

/-- ai_readiness_report.py lines 169-180, calculate_basic_score: sum the
weight (default 10) of every entry into possible, and into earned when the
entry exists (default False is immaterial here since every entry carries the
key).  Returned as (earned, possible). -/
def calculate_basic_score (scan_results : List (String × ScanEntry)) : Int × Int :=
  scan_results.foldl
    (fun ep r =>
      let weight := r.2.info.weight.getD 10
      (if r.2.exists_ then ep.1 + weight else ep.1, ep.2 + weight))
    (0, 0)

/-- ai_readiness_report.py line 286 (and line 391): the percentage is
earned / possible * 100 when possible is positive and 0 otherwise; float
division is modeled by exact rational division. -/
def score_percentage (earned possible : Int) : ℚ :=
  if possible > 0 then (earned : ℚ) / (possible : ℚ) * 100 else 0

/-- The AI_READINESS_FILES configuration of lines 31-71. -/
def AI_READINESS_FILES : List (String × RuleInfo) :=
  [ ("README.md",
     { name := "README",
       description := "Project overview and getting started guide",
       weight := some 10,
       alternatives := some ["readme.md", "README", "README.rst"],
       exclude_files := none }),
    (".openhands/skills/repo.md",
     { name := "Agent Guidelines",
       description := "Static instructions for AI agents (REPO.md, AGENTS.md, etc.)",
       weight := some 30,
       alternatives := some [".openhands/microagents/repo.md", "AGENTS.md"],
       exclude_files := none }),
    (".openhands/skills/",
     { name := "Agent Automation",
       description := "Setup scripts, task-specific commands, and automation for AI agents",
       weight := some 30,
       alternatives := some [".openhands/microagents/", ".openhands/setup.sh"],
       exclude_files := some ["repo.md"] }),
    ("tests/",
     { name := "Test Infrastructure",
       description := "Tests that allow AI agents to verify their changes",
       weight := some 30,
       alternatives := some ["test/", "__tests__/", "spec/", "e2e/",
         "integration/", "cypress/", "playwright/"],
       exclude_files := none }) ]

end ReportCore

namespace ReportCore

/-! ## The finding aggregator: summarize_cves

cve_report.py lines 87-149 (sbom_report.py lines 108-166 are the same code,
except that the sbom version keeps no all_cves list and no urls field; nothing
below depends on either). -/

/-- The severity enumeration in rank order, most severe first: the
severity_order list of cve_report.py line 134 (the same six strings key the
by_severity dict initialized on line 91). -/
def severity_order : List String :=
  ["Critical", "High", "Medium", "Low", "Negligible", "Unknown"]

/-- Rank of a severity string: its position in severity_order, 6 for a string
outside the enumeration.  Lower rank means more severe. -/
def rank (s : String) : Nat :=
  (listIndex s severity_order).getD 6

/-- The vulnerability sub-dict of one grype match, with the fields
summarize_cves reads; every field is an option because the code reads each
with a dict.get default (a missing vulnerability dict behaves like one whose
fields are all absent). -/
structure RawVuln where
  severity : Option String
  id : Option String
  fixVersions : Option (List String)
  description : Option String
  urls : Option (List String)
deriving DecidableEq

/-- The artifact sub-dict of one grype match. -/
structure RawArtifact where
  name : Option String
  version : Option String
  type : Option String
deriving DecidableEq

/-- One raw finding record from the scanner output. -/
structure RawMatch where
  vulnerability : RawVuln
  artifact : RawArtifact
deriving DecidableEq

/-- The severity string the aggregator works with: the raw value, defaulted
to "Unknown" only when the key is absent (line 99).  A present value outside
the enumeration is kept as is. -/
def sevOf (m : RawMatch) : String :=
  m.vulnerability.severity.getD "Unknown"

/-- The cve_info dict built on lines 106-115. -/
structure CveInfo where
  id : String
  severity : String
  package : String
  version : String
  type : String
  fix_versions : List String
  description : String
  urls : List String
deriving DecidableEq

/-- cve_report.py lines 96-115: extract the fields of one match with their
dict.get defaults and build cve_info. -/
def cveInfoOf (m : RawMatch) : CveInfo :=
  { id := m.vulnerability.id.getD "Unknown",
    severity := sevOf m,
    package := m.artifact.name.getD "unknown",
    version := m.artifact.version.getD "unknown",
    type := m.artifact.type.getD "unknown",
    fix_versions := m.vulnerability.fixVersions.getD [],
    description := m.vulnerability.description.getD "",
    urls := m.vulnerability.urls.getD [] }

/-- One value of the by_package dict (lines 122-129); fix_versions is a
Python set, modeled as a duplicate-free list in insertion order. -/
structure PkgGroup where
  name : String
  version : String
  type : String
  cves : List CveInfo
  max_severity : String
  fix_versions : List String
deriving DecidableEq

/-- Line 118: by_severity.get(severity, by_severity["Unknown"]).append(info).
The bucket of the given severity grows when the key is present, otherwise the
Unknown bucket grows. -/
def appendBySeverity (bys : List (String × List CveInfo)) (sev : String)
    (c : CveInfo) : List (String × List CveInfo) :=
  if bys.any (fun p => p.1 = sev) then
    bys.map (fun p => if p.1 = sev then (p.1, p.2 ++ [c]) else p)
  else
    bys.map (fun p => if p.1 = "Unknown" then (p.1, p.2 ++ [c]) else p)

/-- The mutable state of the aggregation loop. -/
structure SummState where
  by_severity : List (String × List CveInfo)
  by_package : List (String × PkgGroup)
  all_cves : List CveInfo
deriving DecidableEq

/-- Lines 89-93: the six empty severity buckets, the empty package map and
the empty list of findings. -/
def initSummState : SummState :=
  { by_severity :=
      [("Critical", []), ("High", []), ("Medium", []), ("Low", []),
       ("Negligible", []), ("Unknown", [])],
    by_package := [],
    all_cves := [] }

/-- The fresh group created on lines 121-129 when the package key is new. -/
def freshGroup (c : CveInfo) : PkgGroup :=
  { name := c.package, version := c.version, type := c.type,
    cves := [], max_severity := "Unknown", fix_versions := [] }

/-- The body of the aggregation loop (lines 95-137) for one match: append the
cve_info to its severity bucket and to all_cves, look up or create the group
keyed by the string name@version, append the cve_info there, union the fix
versions, then compare severity ranks through list.index, which raises
ValueError when the severity string is outside severity_order. -/
def summarizeStep (st : SummState) (m : RawMatch) : Except String SummState :=
  let cve := cveInfoOf m
  let pkg_key := cve.package ++ "@" ++ cve.version
  let g0 := (dictFind? st.by_package pkg_key).getD (freshGroup cve)
  let g1 := { g0 with cves := g0.cves ++ [cve],
                      fix_versions := unionList g0.fix_versions cve.fix_versions }
  match listIndex cve.severity severity_order,
        listIndex g1.max_severity severity_order with
  | some si, some ci =>
    let g2 := if si < ci then { g1 with max_severity := cve.severity } else g1
    Except.ok
      { by_severity := appendBySeverity st.by_severity cve.severity cve,
        by_package := dictInsert st.by_package pkg_key g2,
        all_cves := st.all_cves ++ [cve] }
  | _, _ => Except.error "ValueError: severity not in list"

/-- The summary dict returned on lines 143-149. -/
structure Summary where
  total_cves : Nat
  by_severity : List (String × Nat)
  by_severity_details : List (String × List CveInfo)
  by_package : List (String × PkgGroup)
  all_cves : List CveInfo
deriving DecidableEq

/-- cve_report.py lines 87-149, summarize_cves: fold the loop body over the
matches in input order and package the accumulated state (the set-to-list
conversion of fix_versions on lines 140-141 is the identity here because sets
are already modeled as lists).  The Except value records that the Python
function raises ValueError on a severity outside the enumeration. -/
def summarize_cves (ms : List RawMatch) : Except String Summary := do
  let st ← ms.foldlM summarizeStep initSummState
  pure
    { total_cves := ms.length,
      by_severity := st.by_severity.map (fun p => (p.1, p.2.length)),
      by_severity_details := st.by_severity,
      by_package := st.by_package,
      all_cves := st.all_cves }

end ReportCore

deriving instance DecidableEq for Except

namespace ReportCore

/-! ## Lemmas about listIndex -/

theorem listIndex_get : ∀ (l : List String) (s : String) (i : Nat),
    listIndex s l = some i → l.get? i = some s := by
  intro l
  induction l with
  | nil => intro s i h; simp [listIndex] at h
  | cons x xs ih =>
    intro s i h
    simp only [listIndex] at h
    by_cases hx : x = s
    · simp only [if_pos hx, Option.some.injEq] at h
      subst hx
      simp [← h]
    · simp only [if_neg hx, Option.map_eq_some'] at h
      obtain ⟨j, hj, hi⟩ := h
      subst hi
      simpa using ih s j hj

theorem listIndex_mem {l : List String} {s : String} {i : Nat}
    (h : listIndex s l = some i) : s ∈ l :=
  List.get?_mem (listIndex_get l s i h)

theorem mem_listIndex : ∀ (l : List String) (s : String), s ∈ l →
    ∃ i, listIndex s l = some i := by
  intro l
  induction l with
  | nil => intro s h; simp at h
  | cons x xs ih =>
    intro s h
    by_cases hx : x = s
    · exact ⟨0, by simp [listIndex, hx]⟩
    · have hs : s ∈ xs := by
        rcases List.mem_cons.1 h with h1 | h1
        · exact absurd h1.symm hx
        · exact h1
      obtain ⟨i, hi⟩ := ih s hs
      exact ⟨i + 1, by simp [listIndex, hx, hi]⟩

/-! ## Lemmas about dictInsert and dictFind? -/

theorem dictFind?_mem {α : Type} {l : List (String × α)} {k : String} {v : α}
    (h : dictFind? l k = some v) : (k, v) ∈ l := by
  simp only [dictFind?, Option.map_eq_some'] at h
  obtain ⟨p, hp, hv⟩ := h
  have hmem := List.mem_of_find?_eq_some hp
  have hkey := List.find?_some hp
  have : p.1 = k := by simpa using hkey
  have : p = (k, v) := by
    cases p
    simp only [Prod.mk.injEq]
    exact ⟨this, hv⟩
  exact this ▸ hmem

theorem dictInsert_mem {α : Type} {l : List (String × α)} {k : String} {v : α} :
    ∀ p ∈ dictInsert l k v, p = (k, v) ∨ (p ∈ l ∧ p.1 ≠ k) := by
  intro p hp
  unfold dictInsert at hp
  split at hp
  · next hany =>
    simp only [List.mem_map] at hp
    obtain ⟨q, hq, he⟩ := hp
    by_cases hqk : q.1 = k
    · left
      simp [if_pos hqk] at he
      exact he.symm
    · right
      simp only [if_neg hqk] at he
      exact ⟨he ▸ hq, he ▸ hqk⟩
  · next hany =>
    rcases List.mem_append.1 hp with h1 | h1
    · right
      refine ⟨h1, ?_⟩
      intro hk
      apply hany
      exact List.any_eq_true.2 ⟨p, h1, by simpa using hk⟩
    · left
      simpa using h1

theorem dictInsert_keys_of_any {α : Type} {l : List (String × α)} {k : String}
    {v : α} (h : l.any (fun p => p.1 = k) = true) :
    (dictInsert l k v).map Prod.fst = l.map Prod.fst := by
  unfold dictInsert
  rw [if_pos h, List.map_map]
  apply List.map_congr_left
  intro p _
  by_cases hp : p.1 = k
  · simp [hp]
  · simp [hp]

theorem dictInsert_keys_of_not {α : Type} {l : List (String × α)} {k : String}
    {v : α} (h : l.any (fun p => p.1 = k) = false) :
    (dictInsert l k v).map Prod.fst = l.map Prod.fst ++ [k] := by
  unfold dictInsert
  rw [if_neg (by simp [h])]
  simp

theorem any_key_eq_false_iff {α : Type} {l : List (String × α)} {k : String} :
    l.any (fun p => p.1 = k) = false ↔ k ∉ l.map Prod.fst := by
  constructor
  · intro h hk
    obtain ⟨p, hp, hpk⟩ := List.mem_map.1 hk
    have : l.any (fun p => p.1 = k) = true :=
      List.any_eq_true.2 ⟨p, hp, by simpa using hpk⟩
    rw [h] at this
    cases this
  · intro h
    by_contra hany
    have : l.any (fun p => p.1 = k) = true := by
      cases hb : l.any (fun p => p.1 = k)
      · exact absurd hb hany
      · rfl
    obtain ⟨p, hp, hpk⟩ := List.any_eq_true.1 this
    exact h (List.mem_map.2 ⟨p, hp, by simpa using hpk⟩)

end ReportCore

namespace ReportCore

/-! ## Lemmas about the severity buckets -/

/-- Total number of findings stored in the severity buckets. -/
def sumLens (bys : List (String × List CveInfo)) : Nat :=
  (bys.map (fun p => p.2.length)).sum

theorem appendBySeverity_keys (bys : List (String × List CveInfo)) (sev : String)
    (c : CveInfo) :
    (appendBySeverity bys sev c).map Prod.fst = bys.map Prod.fst := by
  unfold appendBySeverity
  split
  · rw [List.map_map]
    apply List.map_congr_left
    intro p _
    by_cases hp : p.1 = sev
    · simp [hp]
    · simp [hp]
  · rw [List.map_map]
    apply List.map_congr_left
    intro p _
    by_cases hp : p.1 = "Unknown"
    · simp [hp]
    · simp [hp]

theorem update_sum {k : String} {c : CveInfo} :
    ∀ (l : List (String × List CveInfo)), (l.map Prod.fst).Nodup →
      k ∈ l.map Prod.fst →
      sumLens (l.map (fun p => if p.1 = k then (p.1, p.2 ++ [c]) else p)) =
        sumLens l + 1 := by
  intro l
  induction l with
  | nil => intro _ hk; simp at hk
  | cons p t ih =>
    intro hnd hk
    rw [List.map_cons] at hnd hk
    by_cases hp : p.1 = k
    · have hknot : k ∉ t.map Prod.fst := by
        have := (List.nodup_cons.1 hnd).1
        simpa [hp] using this
      have ht : t.map (fun q => if q.1 = k then (q.1, q.2 ++ [c]) else q) = t := by
        have : ∀ q ∈ t, (if q.1 = k then (q.1, q.2 ++ [c]) else q) = id q := by
          intro q hq
          have : q.1 ≠ k := by
            intro he
            exact hknot (List.mem_map.2 ⟨q, hq, he⟩)
          simp [this]
        rw [List.map_congr_left this, List.map_id]
      simp only [List.map_cons, if_pos hp, ht, sumLens, List.map_cons, List.sum_cons]
      simp
      omega
    · have hkt : k ∈ t.map Prod.fst := by
        rcases List.mem_cons.1 hk with h1 | h1
        · exact absurd h1.symm hp
        · exact h1
      have hndt : (t.map Prod.fst).Nodup := (List.nodup_cons.1 hnd).2
      have := ih hndt hkt
      simp only [List.map_cons, if_neg hp, sumLens, List.map_cons, List.sum_cons] at this ⊢
      omega

theorem appendBySeverity_sum {bys : List (String × List CveInfo)} {sev : String}
    {c : CveInfo} (hkeys : bys.map Prod.fst = severity_order) :
    sumLens (appendBySeverity bys sev c) = sumLens bys + 1 := by
  have hnd : (bys.map Prod.fst).Nodup := by
    rw [hkeys]
    decide
  unfold appendBySeverity
  split
  · next hany =>
    obtain ⟨p, hp, hpk⟩ := List.any_eq_true.1 hany
    have hmem : sev ∈ bys.map Prod.fst :=
      List.mem_map.2 ⟨p, hp, by simpa using hpk⟩
    exact update_sum bys hnd hmem
  · have hmem : "Unknown" ∈ bys.map Prod.fst := by
      rw [hkeys]
      decide
    exact update_sum bys hnd hmem

end ReportCore

namespace ReportCore

/-! ## The aggregation loop invariant -/

/-- Invariant of one by_package entry: the group is nonempty, every stored
finding carries exactly the name@version key of the group, and max_severity is
a severity that occurs in the group and has minimal rank there. -/
def GroupInv (k : String) (g : PkgGroup) : Prop :=
  g.cves ≠ [] ∧
  (∀ c ∈ g.cves, k = c.package ++ "@" ++ c.version) ∧
  g.max_severity ∈ g.cves.map (fun c => c.severity) ∧
  g.max_severity ∈ severity_order ∧
  ∀ c ∈ g.cves, rank g.max_severity ≤ rank c.severity

/-- Invariant of the loop state after n processed matches: the severity
buckets keep exactly the six enumeration keys and hold n findings in total,
the package keys are distinct, and every group satisfies GroupInv. -/
def StInv (n : Nat) (st : SummState) : Prop :=
  st.by_severity.map Prod.fst = severity_order ∧
  sumLens st.by_severity = n ∧
  (st.by_package.map Prod.fst).Nodup ∧
  ∀ p ∈ st.by_package, GroupInv p.1 p.2

theorem initSummState_inv : StInv 0 initSummState := by
  refine ⟨rfl, rfl, by decide, ?_⟩
  intro p hp
  simp [initSummState] at hp

theorem rank_eq {s : String} {i : Nat} (h : listIndex s severity_order = some i) :
    rank s = i := by
  simp [rank, h]

theorem group_update_inv
    {k : String} {g0 g2 : PkgGroup} {cve : CveInfo} {si ci : Nat}
    (hk : k = cve.package ++ "@" ++ cve.version)
    (hsi : listIndex cve.severity severity_order = some si)
    (hci : listIndex g0.max_severity severity_order = some ci)
    (hg2c : g2.cves = g0.cves ++ [cve])
    (hg2m : g2.max_severity = if si < ci then cve.severity else g0.max_severity)
    (hpre : (g0.cves = [] ∧ g0.max_severity = "Unknown") ∨ GroupInv k g0) :
    GroupInv k g2 := by
  have hsio : severity_order.get? si = some cve.severity := listIndex_get _ _ _ hsi
  have hsilt : si < 6 := by
    have := List.get?_eq_some.1 hsio
    simpa [severity_order] using this.1
  have hrs : rank cve.severity = si := rank_eq hsi
  have hrm : rank g0.max_severity = ci := rank_eq hci
  refine ⟨by simp [hg2c], ?_, ?_, ?_, ?_⟩
  · intro c hc
    rw [hg2c] at hc
    rcases List.mem_append.1 hc with h1 | h1
    · rcases hpre with ⟨he, _⟩ | hinv
      · rw [he] at h1
        cases h1
      · exact hinv.2.1 c h1
    · have : c = cve := by simpa using h1
      rw [this]
      exact hk
  · rw [hg2m]
    by_cases hlt : si < ci
    · rw [if_pos hlt, hg2c]
      simp
    · rw [if_neg hlt, hg2c]
      rcases hpre with ⟨he, hm⟩ | hinv
      · have hci5 : ci = 5 := by
          rw [hm] at hci
          have h5 : listIndex "Unknown" severity_order = some 5 := by decide
          rw [h5] at hci
          simpa using hci.symm
        have hsi5 : si = 5 := by omega
        have hsev : cve.severity = "Unknown" := by
          rw [hsi5] at hsio
          have h5 : severity_order.get? 5 = some "Unknown" := by decide
          rw [h5] at hsio
          simpa using hsio.symm
        rw [he, hm, ← hsev]
        simp
      · simp only [List.map_append, List.mem_append]
        left
        exact hinv.2.2.1
  · rw [hg2m]
    by_cases hlt : si < ci
    · rw [if_pos hlt]
      exact listIndex_mem hsi
    · rw [if_neg hlt]
      exact listIndex_mem hci
  · intro c hc
    rw [hg2c] at hc
    rw [hg2m]
    by_cases hlt : si < ci
    · rw [if_pos hlt]
      rcases List.mem_append.1 hc with h1 | h1
      · rcases hpre with ⟨he, _⟩ | hinv
        · rw [he] at h1
          cases h1
        · have := hinv.2.2.2.2 c h1
          rw [hrm] at this
          rw [hrs]
          omega
      · have : c = cve := by simpa using h1
        rw [this, hrs]
    · rw [if_neg hlt]
      rcases List.mem_append.1 hc with h1 | h1
      · rcases hpre with ⟨he, _⟩ | hinv
        · rw [he] at h1
          cases h1
        · exact hinv.2.2.2.2 c h1
      · have hc2 : c = cve := by simpa using h1
        rw [hc2, hrm, hrs]
        omega

end ReportCore
namespace ReportCore

theorem summarizeStep_ok_inv {st st' : SummState} {m : RawMatch} {n : Nat}
    (hinv : StInv n st) (h : summarizeStep st m = Except.ok st') :
    StInv (n + 1) st' := by
  simp only [summarizeStep] at h
  split at h
  · next si ci hsi hci =>
    simp only [Except.ok.injEq] at h
    subst h
    refine ⟨?_, ?_, ?_, ?_⟩
    · rw [appendBySeverity_keys]
      exact hinv.1
    · rw [appendBySeverity_sum hinv.1, hinv.2.1]
    · by_cases hany : st.by_package.any
        (fun p => p.1 = (cveInfoOf m).package ++ "@" ++ (cveInfoOf m).version)
      · rw [dictInsert_keys_of_any hany]
        exact hinv.2.2.1
      · have hanyf : st.by_package.any
            (fun p => p.1 = (cveInfoOf m).package ++ "@" ++ (cveInfoOf m).version) = false := by
          cases hb : st.by_package.any
            (fun p => p.1 = (cveInfoOf m).package ++ "@" ++ (cveInfoOf m).version) with
          | false => rfl
          | true => exact absurd hb hany
        rw [dictInsert_keys_of_not hanyf]
        have hnot := any_key_eq_false_iff.1 hanyf
        rw [List.nodup_append]
        refine ⟨hinv.2.2.1, by simp, ?_⟩
        intro a ha hb
        have : a = (cveInfoOf m).package ++ "@" ++ (cveInfoOf m).version := by
          simpa using hb
        rw [this] at ha
        exact hnot ha
    · intro p hp
      rcases dictInsert_mem p hp with hnew | ⟨hold, _⟩
      · subst hnew
        refine @group_update_inv _
          ((dictFind? st.by_package
            ((cveInfoOf m).package ++ "@" ++ (cveInfoOf m).version)).getD
            (freshGroup (cveInfoOf m)))
          _ (cveInfoOf m) si ci rfl hsi hci ?_ ?_ ?_
        · by_cases hlt : si < ci <;> simp [hlt]
        · by_cases hlt : si < ci <;> simp [hlt]
        · cases hf : dictFind? st.by_package
            ((cveInfoOf m).package ++ "@" ++ (cveInfoOf m).version) with
          | none => exact Or.inl ⟨rfl, rfl⟩
          | some g =>
            right
            simpa using hinv.2.2.2 _ (dictFind?_mem hf)
      · exact hinv.2.2.2 p hold
  · cases h

theorem except_bind_ok {α β : Type} (a : α) (f : α → Except String β) :
    (Except.ok a >>= f) = f a := rfl

theorem except_bind_err {α β : Type} (e : String) (f : α → Except String β) :
    ((Except.error e : Except String α) >>= f) = Except.error e := rfl

theorem except_pure {α : Type} (a : α) : (pure a : Except String α) = Except.ok a := rfl

theorem summarizeStep_ok_of_valid {st : SummState} {m : RawMatch} {n : Nat}
    (hinv : StInv n st) (hv : sevOf m ∈ severity_order) :
    ∃ st1, summarizeStep st m = Except.ok st1 := by
  cases h : summarizeStep st m with
  | ok st1 => exact ⟨st1, rfl⟩
  | error e =>
    exfalso
    obtain ⟨si, hsi⟩ := mem_listIndex _ _ hv
    have hsi' : listIndex (cveInfoOf m).severity severity_order = some si := hsi
    simp only [summarizeStep] at h
    split at h
    · cases h
    · next hcatch =>
      cases hf : dictFind? st.by_package
          ((cveInfoOf m).package ++ "@" ++ (cveInfoOf m).version) with
      | none =>
        have hci : listIndex
            ((dictFind? st.by_package
              ((cveInfoOf m).package ++ "@" ++ (cveInfoOf m).version)).getD
              (freshGroup (cveInfoOf m))).max_severity severity_order = some 5 := by
          rw [hf]
          simp [freshGroup]
          decide
        exact hcatch si 5 hsi' hci
      | some g =>
        have hginv : GroupInv ((cveInfoOf m).package ++ "@" ++ (cveInfoOf m).version) g :=
          hinv.2.2.2 _ (dictFind?_mem hf)
        obtain ⟨ci, hci0⟩ := mem_listIndex _ _ hginv.2.2.2.1
        have hci : listIndex
            ((dictFind? st.by_package
              ((cveInfoOf m).package ++ "@" ++ (cveInfoOf m).version)).getD
              (freshGroup (cveInfoOf m))).max_severity severity_order = some ci := by
          rw [hf]
          exact hci0
        exact hcatch si ci hsi' hci

theorem foldlM_inv : ∀ (ms : List RawMatch) (st : SummState) (n : Nat),
    StInv n st → ∀ st', List.foldlM summarizeStep st ms = Except.ok st' →
      StInv (n + ms.length) st' := by
  intro ms
  induction ms with
  | nil =>
    intro st n hinv st' h
    simp only [List.foldlM_nil, except_pure, Except.ok.injEq] at h
    subst h
    simpa using hinv
  | cons m ms ih =>
    intro st n hinv st' h
    rw [List.foldlM_cons] at h
    cases hs : summarizeStep st m with
    | error e =>
      rw [hs, except_bind_err] at h
      cases h
    | ok st1 =>
      rw [hs, except_bind_ok] at h
      have h2 : List.foldlM summarizeStep st1 ms = Except.ok st' := h
      have hinv1 := summarizeStep_ok_inv hinv hs
      have hres := ih st1 (n + 1) hinv1 st' h2
      have harith : n + (m :: ms).length = n + 1 + ms.length := by
        simp [List.length_cons]
        omega
      rw [harith]
      exact hres

theorem foldlM_ok : ∀ (ms : List RawMatch) (st : SummState) (n : Nat),
    StInv n st → (∀ m ∈ ms, sevOf m ∈ severity_order) →
      ∃ st', List.foldlM summarizeStep st ms = Except.ok st' := by
  intro ms
  induction ms with
  | nil =>
    intro st n hinv _
    exact ⟨st, by simp [except_pure]⟩
  | cons m ms ih =>
    intro st n hinv hval
    obtain ⟨st1, hs⟩ := summarizeStep_ok_of_valid hinv (hval m (by simp))
    have hinv1 := summarizeStep_ok_inv hinv hs
    obtain ⟨st', hrest⟩ := ih st1 (n + 1) hinv1 (fun x hx => hval x (by simp [hx]))
    refine ⟨st', ?_⟩
    rw [List.foldlM_cons, hs, except_bind_ok]
    exact hrest

/-- The invariant transported to a successful summarize_cves run. -/
theorem summarize_cves_ok_inv {ms : List RawMatch} {s : Summary}
    (h : summarize_cves ms = Except.ok s) :
    s.total_cves = ms.length ∧
    s.by_severity_details.map Prod.fst = severity_order ∧
    sumLens s.by_severity_details = ms.length ∧
    s.by_severity = s.by_severity_details.map (fun p => (p.1, p.2.length)) ∧
    (s.by_package.map Prod.fst).Nodup ∧
    ∀ p ∈ s.by_package, GroupInv p.1 p.2 := by
  simp only [summarize_cves] at h
  cases hf : List.foldlM summarizeStep initSummState ms with
  | error e =>
    rw [hf, except_bind_err] at h
    cases h
  | ok st =>
    rw [hf, except_bind_ok, except_pure, Except.ok.injEq] at h
    have hst : StInv ms.length st := by
      have := foldlM_inv ms initSummState 0 initSummState_inv st hf
      simpa using this
    subst h
    exact ⟨rfl, hst.1, hst.2.1, rfl, hst.2.2.1, hst.2.2.2⟩

/-- summarize_cves succeeds whenever every severity is in the enumeration. -/
theorem summarize_cves_ok_of_valid {ms : List RawMatch}
    (hval : ∀ m ∈ ms, sevOf m ∈ severity_order) :
    (summarize_cves ms).isOk = true := by
  obtain ⟨st, hf⟩ := foldlM_ok ms initSummState 0 initSummState_inv hval
  simp only [summarize_cves]
  rw [hf, except_bind_ok, except_pure]
  rfl

end ReportCore

namespace ReportCore

/-! ## Lemmas about the resolver -/

theorem findFirstCandidate_eq_find (fs : FS) (ex : Option (List String)) :
    ∀ ps : List String, findFirstCandidate fs ex ps = ps.find? (candExists fs ex) := by
  intro ps
  induction ps with
  | nil => rfl
  | cons p ps ih =>
    by_cases hg : is_glob_pattern p
    · by_cases he : glob_exists fs p
      · simp [findFirstCandidate, List.find?_cons, candExists, hg, he]
      · simp [findFirstCandidate, List.find?_cons, candExists, hg, he, ih]
    · by_cases he : path_exists fs (splitPath p) ex
      · simp [findFirstCandidate, List.find?_cons, candExists, hg, he]
      · simp [findFirstCandidate, List.find?_cons, candExists, hg, he, ih]

theorem scanOneRule_found_at (fs : FS) (fp : String) (info : RuleInfo) :
    (scanOneRule fs fp info).found_at =
      findFirstCandidate fs info.exclude_files (fp :: info.alternatives.getD []) := by
  simp only [scanOneRule]
  cases h : findFirstCandidate fs info.exclude_files (fp :: info.alternatives.getD []) with
  | none =>
    rfl
  | some found =>
    by_cases hg : is_glob_pattern found
    · simp [hg]
    · simp only [hg, Bool.false_eq_true, if_false]
      cases hf : fs.find (splitPath found) with
      | none => simp
      | some k => cases k <;> simp

theorem scanOneRule_exists_of_found (fs : FS) (fp : String) (info : RuleInfo)
    {found : String}
    (h : findFirstCandidate fs info.exclude_files (fp :: info.alternatives.getD []) =
      some found) :
    (scanOneRule fs fp info).exists_ = true := by
  simp only [scanOneRule]
  rw [h]
  simp only
  by_cases hg : is_glob_pattern found
  · simp [hg]
  · simp only [hg, Bool.false_eq_true, if_false]
    cases hf : fs.find (splitPath found) with
    | none => simp
    | some k => cases k <;> simp

theorem scan_files_keys_general (fs : FS) :
    ∀ (rules : List (String × RuleInfo)) (acc : List (String × ScanEntry)),
      ((acc.map Prod.fst) ++ (rules.map Prod.fst)).Nodup →
      (rules.foldl (fun results r => dictInsert results r.1 (scanOneRule fs r.1 r.2))
          acc).map Prod.fst
        = acc.map Prod.fst ++ rules.map Prod.fst := by
  intro rules
  induction rules with
  | nil =>
    intro acc h
    simp
  | cons r rs ih =>
    intro acc h
    simp only [List.map_cons] at h
    have hdisj := (List.nodup_append.1 h).2.2
    have hnotin : r.1 ∉ acc.map Prod.fst := by
      intro hin
      exact hdisj hin (by simp)
    have hany : acc.any (fun p => p.1 = r.1) = false :=
      any_key_eq_false_iff.2 hnotin
    have hkeys := dictInsert_keys_of_not (v := scanOneRule fs r.1 r.2) hany
    simp only [List.foldl_cons]
    rw [ih (dictInsert acc r.1 (scanOneRule fs r.1 r.2))
      (by rw [hkeys]; simpa [List.append_assoc] using h)]
    rw [hkeys]
    simp

theorem scan_files_keys (fs : FS) (rules : List (String × RuleInfo))
    (h : (rules.map Prod.fst).Nodup) :
    (scan_files fs rules).map Prod.fst = rules.map Prod.fst := by
  unfold scan_files
  simpa using scan_files_keys_general fs rules [] (by simpa using h)

theorem calculate_basic_score_append (rs : List (String × ScanEntry))
    (r : String × ScanEntry) :
    calculate_basic_score (rs ++ [r]) =
      ((calculate_basic_score rs).1 +
        (if r.2.exists_ then r.2.info.weight.getD 10 else 0),
       (calculate_basic_score rs).2 + r.2.info.weight.getD 10) := by
  unfold calculate_basic_score
  rw [List.foldl_append]
  by_cases he : r.2.exists_ <;> simp [he]

theorem path_exists_dir_iff (fs : FS) (p : List String) (ex : Option (List String))
    (h : fs.find p = some (NodeKind.dir false)) :
    (path_exists fs p ex = true ↔
      ∃ e ∈ childEntries fs p, e.1 ∉ ex.getD []) := by
  cases ex with
  | none =>
    have hred : path_exists fs p none = !(childEntries fs p).isEmpty := by
      unfold path_exists
      rw [h]
      rfl
    rw [hred]
    generalize childEntries fs p = es
    cases es with
    | nil => simp
    | cons e tl => simp
  | some l =>
    have hred : path_exists fs p (some l) =
        (if l.isEmpty then !(childEntries fs p).isEmpty
         else (childEntries fs p).any (fun e => !(l.contains e.1))) := by
      unfold path_exists
      rw [h]
      rfl
    rw [hred]
    generalize childEntries fs p = es
    by_cases hl : l.isEmpty
    · have hle : l = [] := by simpa using hl
      subst hle
      simp only [List.isEmpty_nil, if_true]
      cases es with
      | nil => simp
      | cons e tl => simp
    · rw [if_neg hl]
      simp [List.any_eq_true]

theorem path_exists_denied (fs : FS) (p : List String) (ex : Option (List String))
    (h : fs.find p = some (NodeKind.dir true)) :
    path_exists fs p ex = false := by
  unfold path_exists
  rw [h]
  rfl

theorem take_of_isPrefixOf : ∀ (p q : List String), p.isPrefixOf q = true →
    q.take p.length = p
  | [], _, _ => rfl
  | a :: p1, [], h => by simp [List.isPrefixOf] at h
  | a :: p1, b :: q1, h => by
    simp only [List.isPrefixOf, Bool.and_eq_true] at h
    have hab : a = b := by simpa using h.1
    simp [List.take_succ_cons, take_of_isPrefixOf p1 q1 h.2, hab]

theorem rglobEntries_denied (fs : FS) (p : List String)
    (h : fs.find p = some (NodeKind.dir true)) :
    rglobEntries fs p = [] := by
  unfold rglobEntries
  rw [List.filter_eq_nil_iff]
  intro q hq
  intro hvis
  simp only [visibleFrom, Bool.and_eq_true, List.all_eq_true, Bool.or_eq_true,
    decide_eq_true_eq] at hvis
  obtain ⟨⟨hpre, hlen⟩, hall⟩ := hvis
  have hlen2 : p.length < q.1.length := hlen
  have hmem : p.length ∈ List.range q.1.length := List.mem_range.2 hlen2
  have := hall p.length hmem
  rcases this with h1 | h1
  · omega
  · have htake : q.1.take p.length = p := take_of_isPrefixOf p q.1 hpre
    rw [htake] at h1
    rw [h] at h1
    cases h1

end ReportCore

namespace ReportCore

/-! ## Concrete fixtures -/

/-- A finding whose severity string Moderate is outside the enumeration. -/
def modMatch : RawMatch :=
  { vulnerability :=
      { severity := some "Moderate", id := some "CVE-2024-0001",
        fixVersions := some ["1.2.3"], description := some "demo", urls := none },
    artifact := { name := some "pkga", version := some "1.0", type := some "npm" } }

/-- A finding whose severity string Serious is outside the enumeration. -/
def seriousMatch : RawMatch :=
  { vulnerability :=
      { severity := some "Serious", id := some "CVE-2024-0002",
        fixVersions := none, description := none, urls := none },
    artifact := { name := some "pkgb", version := some "2.0", type := some "npm" } }

/-- Subject name a@1.0, subject version x. -/
def cm1 : RawMatch :=
  { vulnerability :=
      { severity := some "Critical", id := some "CVE-1", fixVersions := none,
        description := none, urls := none },
    artifact := { name := some "a@1.0", version := some "x", type := none } }

/-- Subject name a, subject version 1.0@x: a different pair than cm1, but the
same name@version concatenation. -/
def cm2 : RawMatch :=
  { vulnerability :=
      { severity := some "Critical", id := some "CVE-2", fixVersions := none,
        description := none, urls := none },
    artifact := { name := some "a", version := some "1.0@x", type := none } }

/-- The summary summarize_cves returns on the one-element input [cm1]. -/
def summaryCm1 : Summary :=
  { total_cves := 1,
    by_severity :=
      [("Critical", 1), ("High", 0), ("Medium", 0), ("Low", 0),
       ("Negligible", 0), ("Unknown", 0)],
    by_severity_details :=
      [("Critical", [cveInfoOf cm1]), ("High", []), ("Medium", []), ("Low", []),
       ("Negligible", []), ("Unknown", [])],
    by_package :=
      [("a@1.0@x",
        { name := "a@1.0", version := "x", type := "unknown",
          cves := [cveInfoOf cm1], max_severity := "Critical",
          fix_versions := [] })],
    all_cves := [cveInfoOf cm1] }

/-- The scenario of the spec: two findings on (pkg, 1.0), one on (other, 2.0). -/
def f1 : RawMatch :=
  { vulnerability :=
      { severity := some "Critical", id := some "CVE-1", fixVersions := none,
        description := none, urls := none },
    artifact := { name := some "pkg", version := some "1.0", type := none } }

def f2 : RawMatch :=
  { vulnerability :=
      { severity := some "Low", id := some "CVE-2", fixVersions := none,
        description := none, urls := none },
    artifact := { name := some "pkg", version := some "1.0", type := none } }

def f3 : RawMatch :=
  { vulnerability :=
      { severity := some "High", id := some "CVE-3", fixVersions := none,
        description := none, urls := none },
    artifact := { name := some "other", version := some "2.0", type := none } }

/-- A snapshot whose primary candidate tests/ is a non-empty directory while
the alternative test/ also exists. -/
def fsPrim : FS :=
  { nodes :=
      [ (["tests"], NodeKind.dir false),
        (["tests", "a.txt"], NodeKind.file "hi"),
        (["test"], NodeKind.dir false),
        (["test", "b.txt"], NodeKind.file "ho") ] }

/-- A test-directory rule with one alternative and no glob candidates. -/
def ruleTests : RuleInfo :=
  { name := "Test Infrastructure",
    description := "Tests that allow AI agents to verify their changes",
    weight := some 30,
    alternatives := some ["test/"],
    exclude_files := none }

/-- A directory d containing only repo.md. -/
def fsDirOnlyRepo : FS :=
  { nodes :=
      [ (["d"], NodeKind.dir false),
        (["d", "repo.md"], NodeKind.file "x") ] }

/-- The same directory with one more file. -/
def fsDirPlus : FS :=
  { nodes :=
      [ (["d"], NodeKind.dir false),
        (["d", "repo.md"], NodeKind.file "x"),
        (["d", "more.txt"], NodeKind.file "y") ] }

/-- A read-denied directory with a file inside it. -/
def fsDenied : FS :=
  { nodes :=
      [ (["locked"], NodeKind.dir true),
        (["locked", "f.txt"], NodeKind.file "z") ] }

/-- An accessible directory holding one readable file and one read-denied
subdirectory that itself holds a file. -/
def fsMeasure : FS :=
  { nodes :=
      [ (["docs"], NodeKind.dir false),
        (["docs", "a.md"], NodeKind.file "x"),
        (["docs", "secret"], NodeKind.dir true),
        (["docs", "secret", "b.md"], NodeKind.file "y") ] }

/-- A scan entry whose rule info has no weight field. -/
def entryNoWeight : ScanEntry :=
  { info :=
      { name := "X", description := "", weight := none,
        alternatives := none, exclude_files := none },
    exists_ := true, found_at := some "x",
    file_count := none, size := none, lines := none }

end ReportCore

namespace ReportCore

/-! ## Claim theorems -/

/-- Claim C1.  The claim says the aggregator is total and never raises, with a
severity string outside the enumeration (such as Moderate) counted under
Unknown.  The code contradicts this: although line 118 routes the finding into
the Unknown bucket, line 136 evaluates severity_order.index(severity), which
raises ValueError for a severity outside the enumeration, so the whole
aggregation aborts on this one-record input. -/
theorem claim1_aggregator_raises_on_moderate :
    summarize_cves [modMatch] = Except.error "ValueError: severity not in list" := by
  decide

/-- Claim C2, counterexample.  The aggregation key is the concatenated string
name@version, not the pair: the records cm1 and cm2 carry distinct
(subjectName, subjectVersion) pairs, yet both land in a single group holding
both findings, because the concatenations collide. -/
theorem claim2_counterexample :
    (((cveInfoOf cm1).package, (cveInfoOf cm1).version) ≠
      ((cveInfoOf cm2).package, (cveInfoOf cm2).version)) ∧
    (summarize_cves [cm1, cm2]).map
        (fun s => s.by_package.map (fun p => (p.1, p.2.cves.length))) =
      Except.ok [("a@1.0@x", 2)] := by
  constructor
  · decide
  · decide

/-- Claim C2, amended.  Two findings share a subject group exactly when their
name@version concatenations agree: in every successful aggregation, every
finding stored in a group carries the key of that group, and group keys are
pairwise distinct. -/
theorem claim2_amended_grouping (F : List RawMatch) (s : Summary)
    (h : summarize_cves F = Except.ok s) :
    (∀ p ∈ s.by_package, ∀ c ∈ p.2.cves, p.1 = c.package ++ "@" ++ c.version) ∧
    (s.by_package.map Prod.fst).Nodup := by
  have hi := summarize_cves_ok_inv h
  exact ⟨fun p hp c hc => (hi.2.2.2.2.2 p hp).2.1 c hc, hi.2.2.2.2.1⟩

theorem claim2_amended_grouping_witness :
    (summaryCm1.by_package.map Prod.fst).Nodup :=
  (claim2_amended_grouping [cm1] summaryCm1 (by decide)).2

/-- Claim C3.  For every rule, the winning candidate is the first of primary
path and alternatives (in listed order) whose existence test succeeds; in
particular, when the primary path is not a glob and path_exists accepts it,
found_at is the primary path and the rule is marked existing, whatever the
alternatives would have yielded. -/
theorem claim3_first_match_wins (fs : FS) (fp : String) (info : RuleInfo) :
    ((scanOneRule fs fp info).found_at =
      (fp :: info.alternatives.getD []).find? (candExists fs info.exclude_files)) ∧
    (is_glob_pattern fp = false →
      path_exists fs (splitPath fp) info.exclude_files = true →
      (scanOneRule fs fp info).found_at = some fp ∧
      (scanOneRule fs fp info).exists_ = true) := by
  have h1 := scanOneRule_found_at fs fp info
  constructor
  · rw [h1, findFirstCandidate_eq_find]
  · intro hg hp
    have hfc : findFirstCandidate fs info.exclude_files
        (fp :: info.alternatives.getD []) = some fp := by
      unfold findFirstCandidate
      simp [hg, hp]
    exact ⟨h1.trans hfc, scanOneRule_exists_of_found fs fp info hfc⟩

theorem claim3_first_match_wins_witness :
    candExists fsPrim ruleTests.exclude_files "test/" = true ∧
    (scanOneRule fsPrim "tests/" ruleTests).found_at = some "tests/" ∧
    (scanOneRule fsPrim "tests/" ruleTests).exists_ = true :=
  ⟨by decide, (claim3_first_match_wins fsPrim "tests/" ruleTests).2 (by decide) (by decide)⟩

/-- Claim C4.  A directory candidate exists exactly when it has at least one
child entry whose name is not in the exclusion list (with no exclusion list,
any non-empty directory counts); instantiated by the witness on a directory
holding only repo.md under exclusion list [repo.md], and on the same directory
with one extra file. -/
theorem claim4_directory_exclusion (fs : FS) (p : List String)
    (ex : Option (List String)) (h : fs.find p = some (NodeKind.dir false)) :
    (path_exists fs p ex = true ↔ ∃ e ∈ childEntries fs p, e.1 ∉ ex.getD []) :=
  path_exists_dir_iff fs p ex h

theorem claim4_directory_exclusion_witness :
    path_exists fsDirOnlyRepo ["d"] (some ["repo.md"]) = false ∧
    path_exists fsDirPlus ["d"] (some ["repo.md"]) = true :=
  ⟨by decide,
   (claim4_directory_exclusion fsDirPlus ["d"] (some ["repo.md"]) (by decide)).mpr
     ⟨("more.txt", NodeKind.file "y"), by decide, by decide⟩⟩

/-- Claim C5.  When every severity string of the input lies in the fixed
enumeration, aggregation succeeds, and in the result every subject group
carries a max_severity that occurs among the severities of the group and has
rank less than or equal to every severity in the group, under the rank order
Critical, High, Medium, Low, Negligible, Unknown with lower rank more
severe. -/
theorem claim5_max_severity (F : List RawMatch)
    (hval : ∀ m ∈ F, sevOf m ∈ severity_order) :
    (summarize_cves F).isOk = true ∧
    ∀ s, summarize_cves F = Except.ok s → ∀ p ∈ s.by_package,
      p.2.cves ≠ [] ∧
      p.2.max_severity ∈ p.2.cves.map (fun c => c.severity) ∧
      ∀ c ∈ p.2.cves, rank p.2.max_severity ≤ rank c.severity := by
  refine ⟨summarize_cves_ok_of_valid hval, ?_⟩
  intro s hs p hp
  have hg := (summarize_cves_ok_inv hs).2.2.2.2.2 p hp
  exact ⟨hg.1, hg.2.2.1, hg.2.2.2.2⟩

theorem claim5_max_severity_witness :
    (summarize_cves [f1, f2, f3]).isOk = true :=
  (claim5_max_severity [f1, f2, f3] (by decide)).1

/-- Claim C6.  Resolution is total and order-preserving: when the rule keys
are pairwise distinct (they are keys of a Python dict), scan_files returns
exactly one result per rule, keyed in the same order. -/
theorem claim6_totality (fs : FS) (rules : List (String × RuleInfo))
    (h : (rules.map Prod.fst).Nodup) :
    (scan_files fs rules).length = rules.length ∧
    (scan_files fs rules).map Prod.fst = rules.map Prod.fst := by
  have hk := scan_files_keys fs rules h
  constructor
  · have hlen := congrArg List.length hk
    simpa using hlen
  · exact hk

theorem claim6_totality_witness :
    (scan_files fsPrim AI_READINESS_FILES).length = AI_READINESS_FILES.length ∧
    (scan_files fsPrim AI_READINESS_FILES).map Prod.fst =
      AI_READINESS_FILES.map Prod.fst :=
  claim6_totality fsPrim AI_READINESS_FILES (by decide)

/-- Claim C7, counterexample.  The claim quantifies over every input sequence,
but on a record whose severity string Serious is outside the enumeration the
aggregator raises ValueError instead of returning an aggregate, so there is no
countsBySeverity to sum. -/
theorem claim7_counterexample :
    summarize_cves [seriousMatch] = Except.error "ValueError: severity not in list" := by
  decide

/-- Claim C7, amended.  For every input sequence whose severity strings all
lie in the fixed enumeration, aggregation succeeds, countsBySeverity carries
exactly the six enumeration keys (zero-filled when empty), and its values sum
to the input length, which also equals totalCount. -/
theorem claim7_amended_counts (F : List RawMatch)
    (hval : ∀ m ∈ F, sevOf m ∈ severity_order) :
    (summarize_cves F).isOk = true ∧
    ∀ s, summarize_cves F = Except.ok s →
      s.by_severity.map Prod.fst = severity_order ∧
      (s.by_severity.map Prod.snd).sum = F.length ∧
      s.total_cves = F.length := by
  refine ⟨summarize_cves_ok_of_valid hval, ?_⟩
  intro s hs
  have hi := summarize_cves_ok_inv hs
  refine ⟨?_, ?_, hi.1⟩
  · rw [hi.2.2.2.1, List.map_map]
    exact hi.2.1
  · rw [hi.2.2.2.1, List.map_map]
    exact hi.2.2.1

theorem claim7_amended_counts_witness :
    (summarize_cves [f1, f2]).isOk = true :=
  (claim7_amended_counts [f1, f2] (by decide)).1

/-- Claim C8.  Scoring is pure and total: the empty result set scores
(earned, possible) = (0, 0), and the derived percentage is 0 whenever
possible = 0, with no division performed. -/
theorem claim8_empty_score :
    calculate_basic_score [] = (0, 0) ∧ ∀ e : Int, score_percentage e 0 = 0 := by
  constructor
  · rfl
  · intro e
    simp [score_percentage]

theorem claim8_empty_score_witness :
    calculate_basic_score [] = (0, 0) ∧ score_percentage 7 0 = 0 :=
  ⟨claim8_empty_score.1, claim8_empty_score.2 7⟩

/-- Claim C9.  A directory whose listing raises PermissionError is treated as
absent by the existence test (the candidate fails), and the recursive
enumeration used for measurement yields nothing below it instead of an error;
the whole resolver stays total. -/
theorem claim9_permission_error (fs : FS) (p : List String)
    (ex : Option (List String)) (h : fs.find p = some (NodeKind.dir true)) :
    path_exists fs p ex = false ∧ rglobEntries fs p = [] :=
  ⟨path_exists_denied fs p ex h, rglobEntries_denied fs p h⟩

theorem claim9_permission_error_witness :
    (path_exists fsDenied ["locked"] none = false ∧
      rglobEntries fsDenied ["locked"] = []) ∧
    dirFileCount fsMeasure ["docs"] none = 1 :=
  ⟨claim9_permission_error fsDenied ["locked"] none (by decide), by decide⟩

/-- Claim C10.  An entry without a weight field contributes exactly the
default 10 to possible, and 10 to earned when its exists flag is true. -/
theorem claim10_default_weight (rs : List (String × ScanEntry)) (k : String)
    (e : ScanEntry) (hw : e.info.weight = none) :
    (calculate_basic_score (rs ++ [(k, e)])).2 = (calculate_basic_score rs).2 + 10 ∧
    (e.exists_ = true →
      (calculate_basic_score (rs ++ [(k, e)])).1 = (calculate_basic_score rs).1 + 10) := by
  have h := calculate_basic_score_append rs (k, e)
  constructor
  · rw [h]
    simp [hw]
  · intro he
    rw [h]
    simp [hw, he]

theorem claim10_default_weight_witness :
    (calculate_basic_score [("x", entryNoWeight)]).2 =
      (calculate_basic_score []).2 + 10 ∧
    (calculate_basic_score [("x", entryNoWeight)]).1 =
      (calculate_basic_score []).1 + 10 :=
  ⟨(claim10_default_weight [] "x" entryNoWeight rfl).1,
   (claim10_default_weight [] "x" entryNoWeight rfl).2 rfl⟩

end ReportCore
